import Mathlib

/-!
Verification of the task-planner core of the AI-Assistant backend
(`backend/app/services/planner/`): schema, tool registry, topological
orderer, sanitizer, validator and planner engine, embedded shallowly from
the Python source, with theorems settling the specification's claims.
-/

namespace Planner

/-- Python values appearing in `inputs` mappings and in the optional
planning `context` (`dict[str, Any]` in `schema.py`): the planner core never
interprets them, so a small closed universe of the value shapes actually
used suffices. -/
inductive PyVal where
  | int (n : Int)
  | str (s : String)
  | bool (b : Bool)
  | dict (kvs : List (String × PyVal))

/-- Values of `failure_policy`: `Literal["abort", "skip", "retry"]` in
`schema.py`.  Pydantic rejects any other runtime value, so the embedded
field ranges over exactly these three. -/
inductive FPolicy where
  | abort
  | skip
  | retry
  deriving DecidableEq

/-- The model `PlannerTask` from `backend/app/services/planner/schema.py`.  Field
defaults mirror the pydantic defaults: `depends_on` defaults to `[]`,
`success_criteria` and `est_duration_min` to `None`, and `failure_policy`
to `"retry"` (a task constructed with the field unset carries `retry`). -/
structure PlannerTask where
  task_id : String
  title : String
  intent : String
  tool : String
  inputs : List (String × PyVal)
  expected_outputs : List String
  depends_on : List String := []
  success_criteria : Option String := none
  failure_policy : FPolicy := .retry
  est_duration_min : Option Int := none

/-- The model `PlannerTaskGraph` from `schema.py`: an ordered sequence of tasks. -/
structure PlannerTaskGraph where
  tasks : List PlannerTask

/-- A tool catalog entry (`ToolSpec` in `registry.py` is a dict with keys
`description`, `inputs`, `outputs`; every registry entry has exactly
those keys). -/
structure ToolSpec where
  description : String
  inputs : List (String × String)
  outputs : List String
  deriving DecidableEq

namespace ToolRegistry

/-- The catalog `ToolRegistry._tools` from `registry.py`: the static catalog, in
declaration order.  Python dict keys are unique. -/
def tools : List (String × ToolSpec) :=
  [ ("calendar_agent.read",
      { description := "Read calendar events and free time blocks."
        inputs := [("window_days", "int")]
        outputs := ["events", "free_blocks"] }),
    ("scheduler_agent.block_plan",
      { description := "Generate a weekly plan given events, free blocks, and preferences."
        inputs := [("events", "list"), ("free_blocks", "list"), ("prefs", "dict")]
        outputs := ["weekly_plan"] }),
    ("booking_agent.search_providers",
      { description := "Search for providers (e.g., dentists) given insurance, location, and window."
        inputs := [("insurance", "str"), ("location", "str"), ("window_days", "int")]
        outputs := ["provider_options"] }),
    ("booking_agent.propose",
      { description := "Propose ranked appointment slots."
        inputs := [("options", "list"), ("free_blocks", "list")]
        outputs := ["ranked_slot_proposals"] }),
    ("email_agent.draft_batch",
      { description := "Draft email replies in batch."
        inputs := [("inbox_filter", "dict"), ("tone", "str")]
        outputs := ["drafts"] }) ]

/-- Embeds `ToolRegistry.all_tools()`: returns the catalog itself. -/
def all_tools : List (String × ToolSpec) := tools

/-- The registry's key set (`ToolRegistry.all_tools().keys()`); Python's
`name in dict` membership test is membership in this list. -/
def keys : List String := tools.map Prod.fst

/-- Embeds `ToolRegistry.get_tool(name)`: `cls._tools[name]`.  A Python dict
lookup returns the value stored under the key; a missing key raises
`KeyError` (the spec's `UnknownTool` failure), embedded as `none`. -/
def get_tool (name : String) : Option ToolSpec :=
  (tools.find? (fun p => p.1 == name)).map Prod.snd

end ToolRegistry

/-- The distinct failures the planner core can produce.  `cycleDetected`
carries the task_id interpolated into the `CycleDetected` message
`"Cycle detected at {tid}"` in `ordering.py` (the `CycleDetected`
exception class lives in `app/services/planner/exceptions.py`, not present
under `src/`; modelled from the spec: "`CycleDetected` — dependency graph
contains a cycle; carries at least one implicated task_id").  The three
`ValueError`s of `validate_plan` carry the datum interpolated into their
distinct messages.  `keyError` models Python's `KeyError` from an absent
dict key; `outOfFuel` is an artefact of the fuel-indexed embedding of the
recursive DFS, proved unreachable below. -/
inductive PlanError where
  | danglingDependency (dep : String)
  | unknownTool (tool : String)
  | noDependencies
  | cycleDetected (tid : String)
  | keyError (tid : String)
  | notImplemented
  | parseFailure
  | outOfFuel
  deriving DecidableEq

/-- The ids of a task list, in order (`task_ids = {t.task_id for t in
plan.tasks}` is this list viewed as a set; only membership is used). -/
def idsOf (tasks : List PlannerTask) : List String :=
  tasks.map PlannerTask.task_id

/-- Embeds `task_map = {t.task_id: t for t in tasks}` from `ordering.py`:
a Python dict comprehension keeps, for each key, the LAST task with that
`task_id`; only lookups are performed on it. -/
def lookupTask (tasks : List PlannerTask) (tid : String) : Option PlannerTask :=
  tasks.reverse.find? (fun t => t.task_id == tid)

/-- The mutable traversal state of `topological_sort`: the `visited` and
`temp` sets and the `result` list. -/
structure VState where
  visited : List String
  temp : List String
  result : List PlannerTask

/-- The recursive `visit(tid)` of `topological_sort` in `ordering.py`:

* `if tid in temp: raise CycleDetected(f"Cycle detected at {tid}")`
* if `tid` already visited, do nothing;
* otherwise add `tid` to `temp`, loop over `task_map[tid].depends_on`
  skipping (`continue`) any dep absent from `task_map`, recursively
  visiting the rest; then remove `tid` from `temp`, add it to `visited`
  and append `task_map[tid]` to `result`.

`task_map[tid]` on an absent key would raise `KeyError` (never reached by
the actual call sites).  The Lean recursion is indexed by a fuel bound on
the recursion depth; `topological_sort` supplies `tasks.length + 1`,
which is proved sufficient (`visit_no_outOfFuel` below), so the embedding
agrees with the unbounded Python recursion.

One iteration of the dep loop (`if dep not in task_map: continue` else
recurse) is factored out as `visitStep`. -/
def visitStep (tasks : List PlannerTask)
    (visitF : String → VState → Except PlanError VState)
    (st : VState) (d : String) : Except PlanError VState :=
  if (lookupTask tasks d).isNone then pure st
  else visitF d st

/-- The body of the recursive `visit`; see `visitStep`'s doc comment. -/
def visit (tasks : List PlannerTask) : Nat → String → VState → Except PlanError VState
  | 0, _, _ => .error .outOfFuel
  | fuel + 1, tid, s =>
    if tid ∈ s.temp then
      .error (.cycleDetected tid)
    else if tid ∈ s.visited then
      .ok s
    else
      match lookupTask tasks tid with
      | none => .error (.keyError tid)
      | some t => do
        let s2 ← t.depends_on.foldlM
          (visitStep tasks (fun d st => visit tasks fuel d st))
          { s with temp := tid :: s.temp }
        pure { visited := tid :: s2.visited
               temp := s2.temp.erase tid
               result := s2.result ++ [t] }

/-- Embeds `topological_sort(tasks)` from `ordering.py`: visit every task in
input order, then return `result[::-1]` (the comment in the source says
"Return in topological order (dependencies first)"). -/
def topological_sort (tasks : List PlannerTask) : Except PlanError (List PlannerTask) := do
  let s ← tasks.foldlM
    (fun st t => visit tasks (tasks.length + 1) t.task_id st)
    ⟨[], [], []⟩
  pure s.result.reverse

/-- Python truthiness of a `failure_policy` value, as tested by
`if not t.failure_policy:` in `sanitize_plan`.  Each of the three
admissible runtime values is a non-empty string, hence truthy. -/
def policyTruthy : FPolicy → Bool
  | .abort => true
  | .skip => true
  | .retry => true

/-- Embeds `sanitize_plan(plan)` from `llm_planner.py`: for each task, if its
`failure_policy` is falsy, set it to `"retry"`; return the plan. -/
def sanitize_plan (plan : PlannerTaskGraph) : PlannerTaskGraph :=
  { tasks := plan.tasks.map (fun t =>
      if policyTruthy t.failure_policy then t
      else { t with failure_policy := .retry }) }

/-- The first check of `validate_plan`: scanning tasks in order and each
task's `depends_on` in order, the first dep not among the graph's
task_ids (the datum of the `ValueError` "depends_on references missing
task_id: {dep}"). -/
def findDangling (tasks : List PlannerTask) : Option String :=
  tasks.findSome? (fun t => t.depends_on.find? (fun d => !(idsOf tasks).contains d))

/-- The second check of `validate_plan`: the first task (in order) whose
`tool` is not a registry key (the datum of the `ValueError`
"Unknown tool: {tool}"). -/
def findUnknownTool (tasks : List PlannerTask) : Option String :=
  (tasks.find? (fun t => !ToolRegistry.keys.contains t.tool)).map PlannerTask.tool

/-- Embeds `validate_plan(plan)` from `llm_planner.py`, in source order:
1. any `depends_on` entry not among the graph's task_ids →
   `ValueError` (dangling dependency);
2. any task's `tool` not in `ToolRegistry.all_tools()` →
   `ValueError` (unknown tool);
3. `if not any(t.depends_on for t in plan.tasks)` → `ValueError`
   ("No dependencies between tasks");
4. `topological_sort(plan.tasks)` for cycle detection, its result
   discarded, its exception propagated;
then `return plan` (the input, unchanged). -/
def validate_plan (plan : PlannerTaskGraph) : Except PlanError PlannerTaskGraph :=
  match findDangling plan.tasks with
  | some d => .error (.danglingDependency d)
  | none =>
    match findUnknownTool plan.tasks with
    | some tl => .error (.unknownTool tl)
    | none =>
      if plan.tasks.all (fun t => t.depends_on.isEmpty) then
        .error .noDependencies
      else
        (topological_sort plan.tasks).map (fun _ => plan)

/-- Embeds `fallback_plan(goal, context)` from `llm_planner.py`: the fixed
three-task graph (t2 and t3 depend on t1); `goal` and `context` are
ignored by its body. -/
def fallback_plan (goal : String) (context : Option (List (String × PyVal))) :
    PlannerTaskGraph :=
  let t1 : PlannerTask :=
    { task_id := "t1"
      title := "Read calendar for the week"
      intent := "Get all events and free time blocks for the week"
      tool := "calendar_agent.read"
      inputs := [("window_days", .int 7)]
      expected_outputs := ["events", "free_blocks"]
      depends_on := [] }
  let t2 : PlannerTask :=
    { task_id := "t2"
      title := "Book dentist appointment"
      intent := "Find and propose dentist appointments"
      tool := "booking_agent.search_providers"
      inputs := [("insurance", .str "user_insurance"),
                 ("location", .str "user_location"),
                 ("window_days", .int 14)]
      expected_outputs := ["provider_options"]
      depends_on := ["t1"] }
  let t3 : PlannerTask :=
    { task_id := "t3"
      title := "Draft email replies"
      intent := "Draft replies to important emails"
      tool := "email_agent.draft_batch"
      inputs := [("inbox_filter", .dict [("unread", .bool true), ("important", .bool true)]),
                 ("tone", .str "professional")]
      expected_outputs := ["drafts"]
      depends_on := ["t1"] }
  { tasks := [t1, t2, t3] }

/-- Embeds `llm_complete(prompt)` from `llm_planner.py`: the stub
unconditionally executes `raise NotImplementedError`. -/
def llm_complete (prompt : String) : Except PlanError String :=
  .error .notImplemented

/-- The prompt composed by `planner_engine` before the `try` block: fixed
preamble, one line per registry tool (name and description, in catalog
order), the goal, the optional context, and a closing instruction.  (The
Python f-string serialization of the context dict is cosmetic — no claim
depends on the prompt text — and is rendered here as the keys joined by
commas.) -/
def composePrompt (goal : String) (context : Option (List (String × PyVal))) : String :=
  let base := "You are a planning agent. Available tools:\n"
  let base := ToolRegistry.tools.foldl
    (fun acc p => acc ++ "- " ++ p.1 ++ ": " ++ p.2.description ++ "\n") base
  let base := base ++ "\nGoal: " ++ goal ++ "\n"
  let base :=
    match context with
    | some ctx => base ++ "Context: " ++ String.intercalate ", " (ctx.map Prod.fst) ++ "\n"
    | none => base
  base ++ "Return a JSON object with tasks, dependencies, and tool usage."

/-- The `try` block of `planner_engine` from `llm_planner.py`,
parameterized by the completion call and by the parse step
`PlannerTaskGraph(**json.loads(raw))` (both are opaque external
collaborators per spec §1): complete → parse → sanitize → validate,
returning the validated graph or the first error.  `planner_engine_with`
below adds the `except Exception:` boundary returning the fallback; its
total return type (no error case) embeds "never raises". -/
def plan_attempt
    (complete : String → Except PlanError String)
    (parse : String → Except PlanError PlannerTaskGraph)
    (prompt : String) : Except PlanError PlannerTaskGraph := do
  let raw ← complete prompt
  let parsed ← parse raw
  let plan := sanitize_plan parsed
  let plan ← validate_plan plan
  pure plan

/-- The failure-absorbing boundary of `planner_engine`: on any error in
the attempt, return `fallback_plan(goal, context)`. -/
def planner_engine_with
    (complete : String → Except PlanError String)
    (parse : String → Except PlanError PlannerTaskGraph)
    (goal : String) (context : Option (List (String × PyVal))) : PlannerTaskGraph :=
  match plan_attempt complete parse (composePrompt goal context) with
  | .ok p => p
  | .error _ => fallback_plan goal context

/-- Modelled from the spec: the engine's Parse step "interpret the
returned text as a structured TaskGraph ... Parse failure (malformed
structure, missing required fields) is treated as planning failed"
(§4.5 step 3).  The JSON decoding itself (`json.loads` + pydantic) is an
external collaborator outside the repository's planner core; its visible
behaviour is "some text parses to some graph, the rest fails", so the
claims below quantify over arbitrary parse functions and never depend on
this particular stand-in, which is reached by no execution path of
`planner_engine` anyway (`llm_complete` raises first). -/
def parse_graph (raw : String) : Except PlanError PlannerTaskGraph :=
  .error .parseFailure

/-- Embeds `planner_engine(goal, context)` from `llm_planner.py`: the pipeline
instantiated with the shipped `llm_complete` stub and the parse step. -/
def planner_engine (goal : String) (context : Option (List (String × PyVal))) :
    PlannerTaskGraph :=
  planner_engine_with llm_complete parse_graph goal context

/-- The dependency relation of a task list, "viewed as a directed graph
(edge task→dep)" (spec §3), as the orderer's `task_map` induces it:
`u` has an edge to `v` when the task stored under `u` lists `v` in its
`depends_on` and `v` is itself a present task_id (a dangling dep induces
no edge — the orderer skips it). -/
def depEdge (tasks : List PlannerTask) (u v : String) : Prop :=
  match lookupTask tasks u with
  | some t => v ∈ t.depends_on ∧ v ∈ idsOf tasks
  | none => False

instance (tasks : List PlannerTask) (u v : String) : Decidable (depEdge tasks u v) :=
  match h : lookupTask tasks u with
  | some t => decidable_of_iff (v ∈ t.depends_on ∧ v ∈ idsOf tasks) (by simp [depEdge, h])
  | none => isFalse (by simp [depEdge, h])

/-- Invariant of §3: every dep of every task names a task_id of the graph. -/
def noDanglingDeps (tasks : List PlannerTask) : Prop :=
  ∀ t ∈ tasks, ∀ d ∈ t.depends_on, d ∈ idsOf tasks

instance (tasks : List PlannerTask) : Decidable (noDanglingDeps tasks) := by
  unfold noDanglingDeps; infer_instance

/-- Invariant of §3: every task's tool is a registry key. -/
def allToolsKnown (tasks : List PlannerTask) : Prop :=
  ∀ t ∈ tasks, t.tool ∈ ToolRegistry.keys

instance (tasks : List PlannerTask) : Decidable (allToolsKnown tasks) := by
  unfold allToolsKnown; infer_instance

/-- Invariant of §3: at least one task has a non-empty `depends_on`. -/
def hasDepEdge (tasks : List PlannerTask) : Prop :=
  ∃ t ∈ tasks, t.depends_on ≠ []

instance (tasks : List PlannerTask) : Decidable (hasDepEdge tasks) := by
  unfold hasDepEdge; infer_instance

/-- Invariant of §3: all `task_id` values are unique within the graph. -/
def uniqueIds (tasks : List PlannerTask) : Prop :=
  (idsOf tasks).Nodup

instance (tasks : List PlannerTask) : Decidable (uniqueIds tasks) := by
  unfold uniqueIds idsOf; infer_instance

/-- Invariant of §3: the dependency relation is acyclic — no task_id reaches
itself through a non-empty chain of dependency edges. -/
def Acyclic (tasks : List PlannerTask) : Prop :=
  ∀ u, ¬ Relation.TransGen (depEdge tasks) u u

/-- A task with its dangling `depends_on` entries removed: only the deps
among `ids` are kept. -/
def stripTask (ids : List String) (t : PlannerTask) : PlannerTask :=
  { t with depends_on := t.depends_on.filter (fun d => ids.contains d) }

/-- A task list with every dangling `depends_on` entry removed from every
task (the task set and order are untouched). -/
def stripDangling (tasks : List PlannerTask) : List PlannerTask :=
  tasks.map (stripTask (idsOf tasks))

/-- The stripped image of a traversal state: `visited` and `temp`
unchanged, result tasks stripped of their dangling deps. -/
def stripState (ids : List String) (st : VState) : VState :=
  { visited := st.visited
    temp := st.temp
    result := st.result.map (stripTask ids) }

/-- A minimal task for building concrete test graphs: only the fields the
orderer and validator inspect vary. -/
def simpleTask (tid : String) (deps : List String) (tool : String) : PlannerTask :=
  { task_id := tid
    title := ""
    intent := ""
    tool := tool
    inputs := []
    expected_outputs := []
    depends_on := deps }

/-- A graph with two tasks sharing task_id "b": no dangling deps, known
tools, a dependency edge, no cycle — but duplicate ids. -/
def dupIdGraph : PlannerTaskGraph :=
  ⟨[simpleTask "a" [] "calendar_agent.read",
    simpleTask "b" ["a"] "calendar_agent.read",
    simpleTask "b" ["a"] "calendar_agent.read"]⟩

/-- The spec's concrete cycle scenario: tasks `a` and `b` depending on
each other (with registered tools). -/
def twoCycleGraph : PlannerTaskGraph :=
  ⟨[simpleTask "a" ["b"] "calendar_agent.read",
    simpleTask "b" ["a"] "calendar_agent.read"]⟩

/-- A graph containing both a cycle among non-dangling references
(`a` ↔ `b`) and, in a third task, a dangling dep `"zzz"`. -/
def cycleAndDanglingGraph : PlannerTaskGraph :=
  ⟨[simpleTask "a" ["b"] "calendar_agent.read",
    simpleTask "b" ["a"] "calendar_agent.read",
    simpleTask "c" ["zzz"] "calendar_agent.read"]⟩

/-- A graph whose single task has both a dangling dep and an unregistered
tool. -/
def danglingAndUnknownToolGraph : PlannerTaskGraph :=
  ⟨[simpleTask "a" ["zzz"] "no_such.tool"]⟩

/-- A graph with no dangling deps whose task uses an unregistered tool. -/
def unknownToolGraph : PlannerTaskGraph :=
  ⟨[simpleTask "a" [] "no_such.tool"]⟩

/-- The spec's degenerate scenario: a single task with no dependencies
(and a registered tool). -/
def noDepsGraph : PlannerTaskGraph :=
  ⟨[simpleTask "a" [] "calendar_agent.read"]⟩

/-- The shape of the `result` list the DFS builds: each appended task is
the `task_map` entry for its id, and all its non-dangling deps appear
among the ids of the earlier portion.  This is the invariant from which
acyclicity of accepted graphs follows. -/
inductive Layered (tasks : List PlannerTask) : List PlannerTask → Prop
  | nil : Layered tasks []
  | snoc (res : List PlannerTask) (t : PlannerTask) :
      Layered tasks res →
      lookupTask tasks t.task_id = some t →
      (∀ v ∈ t.depends_on, v ∈ idsOf tasks → v ∈ idsOf res) →
      Layered tasks (res ++ [t])

/-- The traversal invariant: `visited` is exactly the id set of `result`,
and `result` is layered. -/
structure SInv (tasks : List PlannerTask) (s : VState) : Prop where
  vis_res : ∀ x, x ∈ s.visited ↔ x ∈ idsOf s.result
  layered : Layered tasks s.result

/-- The number of distinct task ids not yet on the DFS path `temp`:
an upper bound on the remaining recursion depth of `visit`. -/
def remaining (tasks : List PlannerTask) (temp : List String) : Nat :=
  ((idsOf tasks).dedup.filter (fun x => !temp.contains x)).length

/-! ## Basic facts about the task map and the validator's checks -/

theorem lookupTask_isSome_iff (tasks : List PlannerTask) (tid : String) :
    (lookupTask tasks tid).isSome ↔ tid ∈ idsOf tasks := by
  rw [lookupTask, List.find?_isSome]
  simp [idsOf, List.mem_reverse, beq_iff_eq, List.mem_map]

theorem lookupTask_eq_some (tasks : List PlannerTask) (tid : String) (t : PlannerTask)
    (h : lookupTask tasks tid = some t) : t ∈ tasks ∧ t.task_id = tid := by
  have hm := List.mem_of_find?_eq_some h
  have hp := List.find?_some h
  rw [List.mem_reverse] at hm
  exact ⟨hm, by simpa using hp⟩

theorem lookupTask_eq_none_iff (tasks : List PlannerTask) (tid : String) :
    lookupTask tasks tid = none ↔ tid ∉ idsOf tasks := by
  rw [← lookupTask_isSome_iff, Option.isSome_iff_ne_none]
  tauto

theorem mem_idsOf_lookup (tasks : List PlannerTask) (t : PlannerTask) (h : t ∈ tasks) :
    (lookupTask tasks t.task_id).isSome := by
  rw [lookupTask_isSome_iff]
  exact List.mem_map_of_mem _ h

theorem findDangling_eq_none_iff (tasks : List PlannerTask) :
    findDangling tasks = none ↔ noDanglingDeps tasks := by
  rw [findDangling, List.findSome?_eq_none_iff]
  constructor
  · intro h t ht d hd
    have := h t ht
    rw [List.find?_eq_none] at this
    have := this d hd
    simpa using this
  · intro h t ht
    rw [List.find?_eq_none]
    intro d hd
    simpa using h t ht d hd

theorem findUnknownTool_eq_none_iff (tasks : List PlannerTask) :
    findUnknownTool tasks = none ↔ allToolsKnown tasks := by
  rw [findUnknownTool, Option.map_eq_none', List.find?_eq_none]
  constructor
  · intro h t ht
    have := h t ht
    simpa using this
  · intro h t ht
    simpa using h t ht

theorem all_isEmpty_iff (tasks : List PlannerTask) :
    tasks.all (fun t => t.depends_on.isEmpty) = true ↔ ¬ hasDepEdge tasks := by
  rw [List.all_eq_true, hasDepEdge]
  push_neg
  constructor
  · intro h t ht
    have := h t ht
    simpa [List.isEmpty_iff] using this
  · intro h t ht
    simp [List.isEmpty_iff]
    exact h t ht

/-- On success `validate_plan` returns its input unchanged: the `return
plan` at the end of the Python function. -/
theorem validate_ok_eq (g g' : PlannerTaskGraph) (h : validate_plan g = .ok g') :
    g' = g := by
  unfold validate_plan at h
  split at h
  · exact absurd h (by simp)
  · split at h
    · exact absurd h (by simp)
    · split at h
      · exact absurd h (by simp)
      · cases hts : topological_sort g.tasks with
        | ok l => rw [hts] at h; simpa [Except.map] using h.symm
        | error e => rw [hts] at h; exact absurd h (by simp [Except.map])

/-- On success all three explicit checks of `validate_plan` have passed
and `topological_sort` returned without error. -/
theorem validate_ok_checks (g g' : PlannerTaskGraph) (h : validate_plan g = .ok g') :
    noDanglingDeps g.tasks ∧ allToolsKnown g.tasks ∧ hasDepEdge g.tasks ∧
      ∃ l, topological_sort g.tasks = .ok l := by
  unfold validate_plan at h
  split at h
  · exact absurd h (by simp)
  next hd =>
    split at h
    · exact absurd h (by simp)
    next hu =>
      split at h
      · exact absurd h (by simp)
      next hne =>
        cases hts : topological_sort g.tasks with
        | ok l =>
          refine ⟨(findDangling_eq_none_iff _).mp hd, (findUnknownTool_eq_none_iff _).mp hu,
            ?_, ⟨l, rfl⟩⟩
          by_contra hc
          exact hne ((all_isEmpty_iff g.tasks).mpr hc)
        | error e => rw [hts] at h; exact absurd h (by simp [Except.map])

/-- The converse direction: if all three checks pass and the sort
succeeds, `validate_plan` succeeds with the input graph. -/
theorem validate_ok_of_checks (g : PlannerTaskGraph)
    (h1 : noDanglingDeps g.tasks) (h2 : allToolsKnown g.tasks) (h3 : hasDepEdge g.tasks)
    (l : List PlannerTask) (h4 : topological_sort g.tasks = .ok l) :
    validate_plan g = .ok g := by
  unfold validate_plan
  rw [(findDangling_eq_none_iff _).mpr h1, (findUnknownTool_eq_none_iff _).mpr h2]
  have hne : ¬ (g.tasks.all (fun t => t.depends_on.isEmpty) = true) := by
    rw [all_isEmpty_iff]
    exact not_not_intro h3
  simp only [Bool.not_eq_true] at hne
  simp [hne, h4, Except.map]

/-- Claim C4: `validate` performs its checks in the fixed order dangling
dependency, unknown tool, no-ordering-constraint (cycle last), failing
fast at the first violated check with that check's distinct error; in
particular a graph with both a dangling dep and an unknown tool fails
with the dangling-dependency error, not the unknown-tool error. -/
theorem c4_validate_check_order (g : PlannerTaskGraph) :
    (¬ noDanglingDeps g.tasks →
      ∃ d, validate_plan g = .error (.danglingDependency d)) ∧
    (noDanglingDeps g.tasks → ¬ allToolsKnown g.tasks →
      ∃ tl, validate_plan g = .error (.unknownTool tl)) ∧
    (noDanglingDeps g.tasks → allToolsKnown g.tasks → ¬ hasDepEdge g.tasks →
      validate_plan g = .error .noDependencies) := by
  refine ⟨?_, ?_, ?_⟩
  · intro h
    cases hd : findDangling g.tasks with
    | none => exact absurd ((findDangling_eq_none_iff _).mp hd) h
    | some d => exact ⟨d, by unfold validate_plan; rw [hd]⟩
  · intro h1 h2
    cases hu : findUnknownTool g.tasks with
    | none => exact absurd ((findUnknownTool_eq_none_iff _).mp hu) h2
    | some tl =>
      refine ⟨tl, ?_⟩
      unfold validate_plan
      rw [(findDangling_eq_none_iff _).mpr h1, hu]
  · intro h1 h2 h3
    unfold validate_plan
    rw [(findDangling_eq_none_iff _).mpr h1, (findUnknownTool_eq_none_iff _).mpr h2]
    have : g.tasks.all (fun t => t.depends_on.isEmpty) = true := by
      rw [all_isEmpty_iff]; exact h3
    rw [this]
    rfl

/-- The sanitizer is the identity on every (pydantic-valid) graph: all
three admissible `failure_policy` literals are truthy strings in Python,
so `if not t.failure_policy` never fires. -/
theorem sanitize_plan_id (g : PlannerTaskGraph) : sanitize_plan g = g := by
  have h : ∀ t : PlannerTask,
      (if policyTruthy t.failure_policy then t
       else { t with failure_policy := .retry }) = t := by
    intro t
    obtain ⟨a, b, c, d, e, f, g', h', fp, i⟩ := t
    cases fp <;> rfl
  cases g with
  | mk tasks => simp [sanitize_plan, h]

/-! ## Easy claims -/

/-- Claim C1, as evaluated on the code: on the fixed fallback graph
(t2 and t3 each depending on t1), `topological_sort` returns the tasks in
the order `[t3, t2, t1]` — t1 LAST, dependents before their dependency —
because the function reverses a result list that the DFS already built
dependencies-first.  This contradicts the claim's required
dependencies-first order (t1 always first) and the source's own comment
"Return in topological order (dependencies first)". -/
theorem c1_topological_sort_reverses_dependencies :
    (topological_sort
        (fallback_plan "Plan my week, book dentist, draft replies" none).tasks).map
      (List.map PlannerTask.task_id) = .ok ["t3", "t2", "t1"] := rfl

/-- Witness for C4 at concrete graphs: a graph with both a dangling dep
and an unknown tool gets the dangling error; with only an unknown tool,
the unknown-tool error; a single dependency-free task (the spec's
degenerate scenario) gets the no-dependencies error. -/
theorem c4_witness :
    (∃ d, validate_plan danglingAndUnknownToolGraph = .error (.danglingDependency d)) ∧
    (∃ tl, validate_plan unknownToolGraph = .error (.unknownTool tl)) ∧
    validate_plan noDepsGraph = .error .noDependencies :=
  ⟨(c4_validate_check_order danglingAndUnknownToolGraph).1 (by decide),
   (c4_validate_check_order unknownToolGraph).2.1 (by decide) (by decide),
   (c4_validate_check_order noDepsGraph).2.2 (by decide) (by decide) (by decide)⟩

/-- Claim C5: `validate` is a confirming pass-through — on success it
returns the input graph unchanged, and validating the returned graph
again succeeds with the identical graph (idempotence). -/
theorem c5_validate_pass_through (g g' : PlannerTaskGraph)
    (h : validate_plan g = .ok g') : g' = g ∧ validate_plan g' = .ok g' := by
  have he := validate_ok_eq g g' h
  subst he
  exact ⟨rfl, h⟩

/-- Witness for C5 at the fallback graph, whose validation succeeds. -/
theorem c5_witness :
    fallback_plan "w" none = fallback_plan "w" none ∧
      validate_plan (fallback_plan "w" none) = .ok (fallback_plan "w" none) :=
  c5_validate_pass_through (fallback_plan "w" none) (fallback_plan "w" none) rfl

/-- Claim C6: the sanitizer never rejects its input and changes only the
`failure_policy` field.  In the shipped schema `failure_policy` is a
non-optional literal defaulting to `"retry"`, so a task whose policy was
unset at construction already carries `retry` (second conjunct) and every
admissible policy value is truthy, making the sanitizer the identity
(first conjunct): explicitly set policies are kept and all other fields
and the task order are untouched. -/
theorem c6_sanitize_default_retry :
    (∀ g : PlannerTaskGraph, sanitize_plan g = g) ∧
    (∀ (tid title intent tool : String) (inputs : List (String × PyVal))
        (eo : List String),
      ({ task_id := tid, title := title, intent := intent, tool := tool,
         inputs := inputs, expected_outputs := eo } : PlannerTask).failure_policy =
        FPolicy.retry) :=
  ⟨sanitize_plan_id, fun _ _ _ _ _ _ => rfl⟩

/-- Claim C9: `get_tool` returns the `ToolSpec` registered under a
present name, and fails (Python `KeyError` on the dict lookup — the
spec's `UnknownTool` failure, embedded as `none`) for an absent name. -/
theorem c9_get_tool_lookup (name : String) (spec : ToolSpec) :
    ((name, spec) ∈ ToolRegistry.tools → ToolRegistry.get_tool name = some spec) ∧
    (name ∉ ToolRegistry.keys → ToolRegistry.get_tool name = none) := by
  constructor
  · intro h
    simp only [ToolRegistry.tools, List.mem_cons, List.not_mem_nil, or_false,
      Prod.mk.injEq] at h
    rcases h with ⟨rfl, rfl⟩ | ⟨rfl, rfl⟩ | ⟨rfl, rfl⟩ | ⟨rfl, rfl⟩ | ⟨rfl, rfl⟩ <;> rfl
  · intro h
    rw [ToolRegistry.get_tool]
    have hf : ToolRegistry.tools.find? (fun p => p.1 == name) = none := by
      rw [List.find?_eq_none]
      intro p hp
      simp only [beq_iff_eq]
      intro hc
      exact h (hc ▸ List.mem_map_of_mem Prod.fst hp)
    rw [hf]
    rfl

/-- Witness for C9: a present name returns its spec, an absent name
returns the failure. -/
theorem c9_witness :
    ToolRegistry.get_tool "booking_agent.propose" =
      some { description := "Propose ranked appointment slots."
             inputs := [("options", "list"), ("free_blocks", "list")]
             outputs := ["ranked_slot_proposals"] } ∧
    ToolRegistry.get_tool "no_such.tool" = none :=
  ⟨(c9_get_tool_lookup "booking_agent.propose" _).1 (by decide),
   (c9_get_tool_lookup "no_such.tool"
      { description := "", inputs := [], outputs := [] }).2 (by decide)⟩

/-- Claim C10: the shipped `llm_complete` raises unconditionally, so the
engine always takes the fallback path: with the stub completion the
pipeline equals `fallback_plan` whatever the parse step does, and
`planner_engine` and `fallback_plan` are equal as functions — the
parse/sanitize/validate path is never exercised. -/
theorem c10_engine_equals_fallback :
    (∀ (parse : String → Except PlanError PlannerTaskGraph) (goal : String)
        (context : Option (List (String × PyVal))),
      planner_engine_with llm_complete parse goal context = fallback_plan goal context) ∧
    planner_engine = fallback_plan :=
  ⟨fun _ _ _ => rfl, funext fun _ => funext fun _ => rfl⟩

/-! ## Counterexamples: the unchecked uniqueness invariant and the
validator's check order -/

/-- Counterexample for C3: `validate_plan` never examines `task_id`
uniqueness, so the graph with two tasks both named "b" is accepted
although its ids are not unique. -/
theorem c3_counterexample_duplicate_ids_accepted :
    validate_plan dupIdGraph = .ok dupIdGraph ∧ ¬ uniqueIds dupIdGraph.tasks :=
  ⟨rfl, by decide⟩

/-- Counterexample for C2: a completion whose text parses to the
duplicate-id graph (realizable: `json.loads` + pydantic accept duplicate
`task_id` values) makes the engine return a graph violating the
uniqueness invariant of §3. -/
theorem c2_counterexample_duplicate_ids_returned :
    planner_engine_with (fun _ => .ok "raw") (fun _ => .ok dupIdGraph) "any goal" none =
      dupIdGraph ∧ ¬ uniqueIds dupIdGraph.tasks :=
  ⟨rfl, by decide⟩

/-! ## The DFS: inversion and invariant lemmas -/

/-- Inverting a successful step of `visit` at positive fuel. -/
theorem visit_succ_ok_inv (tasks : List PlannerTask) (fuel : Nat) (tid : String)
    (s s' : VState) (h : visit tasks (fuel + 1) tid s = .ok s') :
    tid ∉ s.temp ∧
      ((tid ∈ s.visited ∧ s' = s) ∨
        (tid ∉ s.visited ∧ ∃ t s2, lookupTask tasks tid = some t ∧
          t.depends_on.foldlM (visitStep tasks (fun d st => visit tasks fuel d st))
            { s with temp := tid :: s.temp } = .ok s2 ∧
          s' = { visited := tid :: s2.visited
                 temp := s2.temp.erase tid
                 result := s2.result ++ [t] })) := by
  rw [visit] at h
  by_cases h1 : tid ∈ s.temp
  · rw [if_pos h1] at h
    exact Except.noConfusion h
  · rw [if_neg h1] at h
    refine ⟨h1, ?_⟩
    by_cases h2 : tid ∈ s.visited
    · rw [if_pos h2] at h
      cases h
      exact Or.inl ⟨h2, rfl⟩
    · rw [if_neg h2] at h
      cases hl : lookupTask tasks tid with
      | none =>
        rw [hl] at h
        exact Except.noConfusion h
      | some t =>
        rw [hl] at h
        have h' : (do
            let s2 ← t.depends_on.foldlM
              (visitStep tasks (fun d st => visit tasks fuel d st))
              { s with temp := tid :: s.temp }
            pure { visited := tid :: s2.visited
                   temp := s2.temp.erase tid
                   result := s2.result ++ [t] } : Except PlanError VState) = .ok s' := h
        cases hf : t.depends_on.foldlM
            (visitStep tasks (fun d st => visit tasks fuel d st))
            { s with temp := tid :: s.temp } with
        | error e =>
          rw [hf] at h'
          exact Except.noConfusion h'
        | ok s2 =>
          rw [hf] at h'
          have h2' : ({ visited := tid :: s2.visited
                        temp := s2.temp.erase tid
                        result := s2.result ++ [t] } : VState) = s' := Except.ok.inj h'
          exact Or.inr ⟨h2, t, s2, rfl, hf, h2'.symm⟩

/-- A reflexive-transitive relation between states that every `visitF`
success step satisfies is preserved by the dep loop (the skip branch
keeps the state unchanged). -/
theorem foldlM_visitStep_rel (tasks : List PlannerTask)
    (f : String → VState → Except PlanError VState)
    (P : VState → VState → Prop)
    (hrefl : ∀ st, P st st)
    (htrans : ∀ a b c, P a b → P b c → P a c)
    (hf : ∀ d st st', f d st = .ok st' → P st st') :
    ∀ (ds : List String) (st st' : VState),
      ds.foldlM (visitStep tasks f) st = .ok st' → P st st' := by
  intro ds
  induction ds with
  | nil =>
    intro st st' h
    simp only [List.foldlM_nil] at h
    cases h
    exact hrefl st
  | cons d ds ih =>
    intro st st' h
    rw [List.foldlM_cons] at h
    by_cases hd : (lookupTask tasks d).isNone
    · rw [visitStep, if_pos hd] at h
      exact ih st st' h
    · rw [visitStep, if_neg hd] at h
      cases hv : f d st with
      | error e =>
        rw [hv] at h
        exact Except.noConfusion h
      | ok st1 =>
        rw [hv] at h
        exact htrans st st1 st' (hf d st st1 hv) (ih st1 st' h)

/-- If the dep loop fails, some non-skipped dep's `visitF` call failed
with the same error, from a state with the same `temp` (provided success
steps preserve `temp`). -/
theorem foldlM_visitStep_error (tasks : List PlannerTask)
    (f : String → VState → Except PlanError VState)
    (htemp : ∀ d st st', f d st = .ok st' → st'.temp = st.temp) :
    ∀ (ds : List String) (st : VState) (e : PlanError),
      ds.foldlM (visitStep tasks f) st = .error e →
      ∃ d ∈ ds, ∃ st1 : VState, st1.temp = st.temp ∧
        (lookupTask tasks d).isNone = false ∧ f d st1 = .error e := by
  intro ds
  induction ds with
  | nil =>
    intro st e h
    simp only [List.foldlM_nil] at h
    exact Except.noConfusion h
  | cons d ds ih =>
    intro st e h
    rw [List.foldlM_cons] at h
    by_cases hd : (lookupTask tasks d).isNone
    · rw [visitStep, if_pos hd] at h
      obtain ⟨d', hd', st1, ht1, hn, hv⟩ := ih st e h
      exact ⟨d', List.mem_cons_of_mem d hd', st1, ht1, hn, hv⟩
    · rw [visitStep, if_neg hd] at h
      cases hv : f d st with
      | error e' =>
        rw [hv] at h
        have he : e' = e := by
          have : (Except.error e' : Except PlanError VState) = .error e := h
          exact Except.error.inj this
        exact ⟨d, List.mem_cons_self d ds, st,
          rfl, Bool.eq_false_iff.mpr hd, by rw [hv, he]⟩
      | ok st1 =>
        rw [hv] at h
        obtain ⟨d', hd', st2, ht2, hn, hv'⟩ := ih st1 e h
        exact ⟨d', List.mem_cons_of_mem d hd', st2,
          by rw [ht2, htemp d st st1 hv], hn, hv'⟩

/-- After a successful dep loop every present (non-dangling) dep in the
list has been visited. -/
theorem foldlM_visitStep_mem_visited (tasks : List PlannerTask)
    (f : String → VState → Except PlanError VState)
    (hvisits : ∀ d st st', f d st = .ok st' → d ∈ st'.visited)
    (hmono : ∀ d st st', f d st = .ok st' → st.visited ⊆ st'.visited) :
    ∀ (ds : List String) (st st' : VState),
      ds.foldlM (visitStep tasks f) st = .ok st' →
      ∀ d ∈ ds, d ∈ idsOf tasks → d ∈ st'.visited := by
  intro ds
  induction ds with
  | nil =>
    intro st st' _ d hd
    exact absurd hd (List.not_mem_nil d)
  | cons d ds ih =>
    intro st st' h d' hd' hids
    rw [List.foldlM_cons] at h
    by_cases hd : (lookupTask tasks d).isNone
    · rw [visitStep, if_pos hd] at h
      rcases List.mem_cons.mp hd' with rfl | hmem
      · rw [Option.isNone_iff_eq_none, lookupTask_eq_none_iff] at hd
        exact absurd hids hd
      · exact ih st st' h d' hmem hids
    · rw [visitStep, if_neg hd] at h
      cases hv : f d st with
      | error e =>
        rw [hv] at h
        exact Except.noConfusion h
      | ok st1 =>
        rw [hv] at h
        rcases List.mem_cons.mp hd' with rfl | hmem
        · have hin := hvisits d' st st1 hv
          have hsub := foldlM_visitStep_rel tasks f
            (fun a b => a.visited ⊆ b.visited) (fun _ => List.Subset.refl _)
            (fun a b c hab hbc => List.Subset.trans hab hbc) hmono ds st1 st' h
          exact hsub hin
        · exact ih st1 st' h d' hmem hids

/-- Successful `visit` calls leave `temp` unchanged (what was pushed is
popped again). -/
theorem visit_ok_temp (tasks : List PlannerTask) :
    ∀ fuel tid s s', visit tasks fuel tid s = .ok s' → s'.temp = s.temp := by
  intro fuel
  induction fuel with
  | zero =>
    intro tid s s' h
    exact Except.noConfusion h
  | succ fuel ih =>
    intro tid s s' h
    obtain ⟨h1, hcase⟩ := visit_succ_ok_inv tasks fuel tid s s' h
    rcases hcase with ⟨_, rfl⟩ | ⟨_, t, s2, _, hf, rfl⟩
    · rfl
    · have ht := foldlM_visitStep_rel tasks _ (fun a b => b.temp = a.temp)
        (fun _ => rfl) (fun a b c hab hbc => hbc.trans hab)
        (fun d st st' hh => ih d st st' hh) t.depends_on _ s2 hf
      simp only [ht]
      exact List.erase_cons_head tid s.temp

/-- Successful `visit` calls only grow the `visited` set. -/
theorem visit_ok_mono (tasks : List PlannerTask) :
    ∀ fuel tid s s', visit tasks fuel tid s = .ok s' → s.visited ⊆ s'.visited := by
  intro fuel
  induction fuel with
  | zero =>
    intro tid s s' h
    exact Except.noConfusion h
  | succ fuel ih =>
    intro tid s s' h
    obtain ⟨h1, hcase⟩ := visit_succ_ok_inv tasks fuel tid s s' h
    rcases hcase with ⟨_, rfl⟩ | ⟨_, t, s2, _, hf, rfl⟩
    · exact List.Subset.refl _
    · have hsub := foldlM_visitStep_rel tasks _
        (fun a b => a.visited ⊆ b.visited) (fun _ => List.Subset.refl _)
        (fun a b c hab hbc => List.Subset.trans hab hbc)
        (fun d st st' hh => ih d st st' hh) t.depends_on _ s2 hf
      exact fun x hx => List.mem_cons_of_mem _ (hsub hx)

/-- A successful `visit tid` leaves `tid` visited. -/
theorem visit_ok_visits (tasks : List PlannerTask) (fuel : Nat) (tid : String)
    (s s' : VState) (h : visit tasks fuel tid s = .ok s') : tid ∈ s'.visited := by
  cases fuel with
  | zero => exact Except.noConfusion h
  | succ fuel =>
    obtain ⟨h1, hcase⟩ := visit_succ_ok_inv tasks fuel tid s s' h
    rcases hcase with ⟨h2, rfl⟩ | ⟨_, t, s2, _, _, rfl⟩
    · exact h2
    · exact List.mem_cons_self _ _

/-- Successful `visit` calls preserve the traversal invariant `SInv`. -/
theorem visit_ok_SInv (tasks : List PlannerTask) :
    ∀ fuel tid s s', visit tasks fuel tid s = .ok s' → SInv tasks s → SInv tasks s' := by
  intro fuel
  induction fuel with
  | zero =>
    intro tid s s' h
    exact Except.noConfusion h
  | succ fuel ih =>
    intro tid s s' h hs
    obtain ⟨h1, hcase⟩ := visit_succ_ok_inv tasks fuel tid s s' h
    rcases hcase with ⟨_, rfl⟩ | ⟨h2, t, s2, hl, hf, rfl⟩
    · exact hs
    · have hs0 : SInv tasks { s with temp := tid :: s.temp } := ⟨hs.vis_res, hs.layered⟩
      have hs2 : SInv tasks s2 := foldlM_visitStep_rel tasks _
        (fun a b => SInv tasks a → SInv tasks b) (fun _ hh => hh)
        (fun a b c hab hbc hh => hbc (hab hh))
        (fun d st st' hh hst => ih d st st' hh hst) t.depends_on _ s2 hf hs0
      have hdeps : ∀ v ∈ t.depends_on, v ∈ idsOf tasks → v ∈ idsOf s2.result := by
        intro v hv hvids
        have hvmem := foldlM_visitStep_mem_visited tasks _
          (fun d st st' hh => visit_ok_visits tasks fuel d st st' hh)
          (fun d st st' hh => visit_ok_mono tasks fuel d st st' hh)
          t.depends_on _ s2 hf v hv hvids
        exact (hs2.vis_res v).mp hvmem
      have hid : t.task_id = tid := (lookupTask_eq_some tasks tid t hl).2
      refine ⟨?_, ?_⟩
      · intro x
        simp only [idsOf, List.map_append, List.map_cons, List.map_nil, List.mem_append,
          List.mem_cons, List.not_mem_nil, or_false, List.mem_singleton]
        constructor
        · rintro (rfl | hx)
          · exact Or.inr hid.symm
          · exact Or.inl ((hs2.vis_res x).mp hx)
        · rintro (hx | rfl)
          · exact Or.inr ((hs2.vis_res x).mpr hx)
          · rw [hid]
            exact Or.inl rfl
      · exact Layered.snoc s2.result t hs2.layered (hid ▸ hl) hdeps

/-! ## Layered results admit no cycle through their ids -/

/-- The source of a dependency edge is a present task_id. -/
theorem depEdge_src_mem (tasks : List PlannerTask) (u v : String)
    (h : depEdge tasks u v) : u ∈ idsOf tasks := by
  rw [← lookupTask_isSome_iff]
  cases hl : lookupTask tasks u with
  | none =>
    simp only [depEdge, hl] at h
  | some t => rfl

/-- The id set of a layered result is closed under dependency edges. -/
theorem layered_closed (tasks res : List PlannerTask) (hL : Layered tasks res) :
    ∀ x y, x ∈ idsOf res → depEdge tasks x y → y ∈ idsOf res := by
  induction hL with
  | nil =>
    intro x y hx
    exact absurd hx (List.not_mem_nil x)
  | snoc res t hL hlk hdeps ih =>
    intro x y hx hxy
    rw [idsOf, List.map_append] at hx
    rcases List.mem_append.mp hx with hx | hx
    · have hy : y ∈ idsOf res := ih x y hx hxy
      rw [idsOf, List.map_append]
      exact List.mem_append_left _ hy
    · simp only [List.map_cons, List.map_nil, List.mem_singleton] at hx
      subst hx
      simp only [depEdge, hlk] at hxy
      have hy : y ∈ idsOf res := hdeps y hxy.1 hxy.2
      rw [idsOf, List.map_append]
      exact List.mem_append_left _ hy

/-- The id set of a layered result is closed under reachability. -/
theorem layered_rtg_closed (tasks res : List PlannerTask) (hL : Layered tasks res)
    (x y : String) (hx : x ∈ idsOf res)
    (hxy : Relation.ReflTransGen (depEdge tasks) x y) : y ∈ idsOf res := by
  induction hxy with
  | refl => exact hx
  | tail hab hbc ih => exact layered_closed tasks res hL _ _ ih hbc

/-- No id of a layered result lies on a dependency cycle: each appended
task's deps point into the strictly earlier portion. -/
theorem layered_no_cycle (tasks res : List PlannerTask) (hL : Layered tasks res) :
    ∀ u, u ∈ idsOf res → ¬ Relation.TransGen (depEdge tasks) u u := by
  induction hL with
  | nil =>
    intro u hu
    exact absurd hu (List.not_mem_nil u)
  | snoc res t hL hlk hdeps ih =>
    intro u hu htg
    rw [idsOf, List.map_append] at hu
    rcases List.mem_append.mp hu with hu | hu
    · exact ih u hu htg
    · simp only [List.map_cons, List.map_nil, List.mem_singleton] at hu
      subst hu
      by_cases hmem : t.task_id ∈ idsOf res
      · exact ih _ hmem htg
      · obtain ⟨c, hedge, hrtg⟩ := Relation.TransGen.head'_iff.mp htg
        simp only [depEdge, hlk] at hedge
        have hc : c ∈ idsOf res := hdeps _ hedge.1 hedge.2
        exact hmem (layered_rtg_closed tasks res hL c _ hc hrtg)

/-! ## The top-level loop of the sort -/

/-- A successful top-level loop preserves `SInv`, grows `visited`, and
visits every listed task's id. -/
theorem topFold_ok (tasks : List PlannerTask) (N : Nat) :
    ∀ (ts : List PlannerTask) (st st' : VState),
      ts.foldlM (fun st t => visit tasks N t.task_id st) st = .ok st' →
      (SInv tasks st → SInv tasks st') ∧ st.visited ⊆ st'.visited ∧
        (∀ t ∈ ts, t.task_id ∈ st'.visited) := by
  intro ts
  induction ts with
  | nil =>
    intro st st' h
    simp only [List.foldlM_nil] at h
    cases h
    exact ⟨id, List.Subset.refl _, fun t ht => absurd ht (List.not_mem_nil t)⟩
  | cons t ts ih =>
    intro st st' h
    rw [List.foldlM_cons] at h
    cases hv : visit tasks N t.task_id st with
    | error e =>
      rw [hv] at h
      exact Except.noConfusion h
    | ok st1 =>
      rw [hv] at h
      obtain ⟨hinv, hsub, hall⟩ := ih st1 st' h
      refine ⟨fun hs => hinv (visit_ok_SInv tasks N t.task_id st st1 hv hs),
        List.Subset.trans (visit_ok_mono tasks N t.task_id st st1 hv) hsub, ?_⟩
      intro t' ht'
      rcases List.mem_cons.mp ht' with rfl | hmem
      · exact hsub (visit_ok_visits tasks N t'.task_id st st1 hv)
      · exact hall t' hmem

/-- If the top-level loop fails, some listed task's `visit` failed with
the same error, from a state with the same `temp`. -/
theorem topFold_error (tasks : List PlannerTask) (N : Nat) :
    ∀ (ts : List PlannerTask) (st : VState) (e : PlanError),
      ts.foldlM (fun st t => visit tasks N t.task_id st) st = .error e →
      ∃ t ∈ ts, ∃ st1 : VState, st1.temp = st.temp ∧
        visit tasks N t.task_id st1 = .error e := by
  intro ts
  induction ts with
  | nil =>
    intro st e h
    simp only [List.foldlM_nil] at h
    exact Except.noConfusion h
  | cons t ts ih =>
    intro st e h
    rw [List.foldlM_cons] at h
    cases hv : visit tasks N t.task_id st with
    | error e' =>
      rw [hv] at h
      have he : e' = e := Except.error.inj h
      exact ⟨t, List.mem_cons_self t ts, st, rfl, by rw [hv, he]⟩
    | ok st1 =>
      rw [hv] at h
      obtain ⟨t', ht', st2, htemp, hv'⟩ := ih st1 e h
      exact ⟨t', List.mem_cons_of_mem t ht', st2,
        by rw [htemp, visit_ok_temp tasks N t.task_id st st1 hv], hv'⟩

/-- A successful sort yields a final state satisfying `SInv` in which
every task's id has been visited. -/
theorem sort_ok_inv (tasks : List PlannerTask) (l : List PlannerTask)
    (h : topological_sort tasks = .ok l) :
    ∃ sF : VState, SInv tasks sF ∧ ∀ t ∈ tasks, t.task_id ∈ sF.visited := by
  unfold topological_sort at h
  cases hf : tasks.foldlM
      (fun st t => visit tasks (tasks.length + 1) t.task_id st)
      ⟨[], [], []⟩ with
  | error e =>
    rw [hf] at h
    exact Except.noConfusion h
  | ok sF =>
    obtain ⟨hinv, _, hall⟩ := topFold_ok tasks (tasks.length + 1) tasks _ sF hf
    refine ⟨sF, hinv ⟨?_, Layered.nil⟩, hall⟩
    intro x
    simp [idsOf]

/-- Soundness of the cycle detection: if `topological_sort` succeeds, the
dependency relation is acyclic. -/
theorem sort_ok_acyclic (tasks : List PlannerTask) (l : List PlannerTask)
    (h : topological_sort tasks = .ok l) : Acyclic tasks := by
  obtain ⟨sF, hinv, hall⟩ := sort_ok_inv tasks l h
  intro u htg
  have hu : u ∈ idsOf tasks := by
    obtain ⟨c, hedge, _⟩ := Relation.TransGen.head'_iff.mp htg
    exact depEdge_src_mem tasks u c hedge
  rw [idsOf, List.mem_map] at hu
  obtain ⟨t, ht, rfl⟩ := hu
  have hres : t.task_id ∈ idsOf sF.result := (hinv.vis_res _).mp (hall t ht)
  exact layered_no_cycle tasks sF.result hinv.layered _ hres htg

/-! ## The fuel bound is sufficient and the DFS fails only on cycles -/

/-- A dep that is not skipped is a present task id. -/
theorem isNone_false_mem (tasks : List PlannerTask) (d : String)
    (h : (lookupTask tasks d).isNone = false) : d ∈ idsOf tasks := by
  rw [← lookupTask_isSome_iff]
  cases hl : lookupTask tasks d with
  | none => rw [hl] at h; exact absurd h (by simp)
  | some t => rfl

/-- Pushing a fresh present id onto the path strictly decreases the
number of distinct ids left to explore. -/
theorem remaining_cons_lt (tasks : List PlannerTask) (temp : List String) (tid : String)
    (hids : tid ∈ idsOf tasks) (htemp : tid ∉ temp) :
    remaining tasks (tid :: temp) < remaining tasks temp := by
  unfold remaining
  have hre : ((idsOf tasks).dedup.filter (fun x => !((tid :: temp).contains x)))
      = ((idsOf tasks).dedup.filter (fun x => !temp.contains x)).filter
          (fun x => !(x == tid)) := by
    rw [List.filter_filter]
    apply List.filter_congr
    intro x _
    by_cases hx : x = tid <;> by_cases hm : x ∈ temp <;>
      simp [List.contains_cons, hx, hm]
  rw [hre]
  apply (List.length_filter_lt_length_iff_exists).mpr
  refine ⟨tid, List.mem_filter.mpr ⟨List.mem_dedup.mpr hids, ?_⟩, by simp⟩
  simp [htemp]

/-- With no ids left out of the path, `remaining` counts the distinct
ids. -/
theorem remaining_nil (tasks : List PlannerTask) :
    remaining tasks [] = (idsOf tasks).dedup.length := by
  unfold remaining
  congr 1
  apply List.filter_eq_self.mpr
  intro x _
  simp

/-- The supplied fuel never runs out: `visit` cannot return the
`outOfFuel` artefact while more fuel than distinct unexplored ids
remains. -/
theorem visit_no_outOfFuel (tasks : List PlannerTask) :
    ∀ fuel tid (s : VState), s.temp.Nodup → (∀ x ∈ s.temp, x ∈ idsOf tasks) →
      remaining tasks s.temp < fuel → visit tasks fuel tid s ≠ .error .outOfFuel := by
  intro fuel
  induction fuel with
  | zero =>
    intro tid s _ _ hr
    exact absurd hr (Nat.not_lt_zero _)
  | succ fuel ih =>
    intro tid s hnd hsub hr h
    rw [visit] at h
    by_cases h1 : tid ∈ s.temp
    · rw [if_pos h1] at h
      exact PlanError.noConfusion (Except.error.inj h)
    · rw [if_neg h1] at h
      by_cases h2 : tid ∈ s.visited
      · rw [if_pos h2] at h
        exact Except.noConfusion h
      · rw [if_neg h2] at h
        cases hl : lookupTask tasks tid with
        | none =>
          rw [hl] at h
          exact PlanError.noConfusion (Except.error.inj h)
        | some t =>
          rw [hl] at h
          have h' : (do
              let s2 ← t.depends_on.foldlM
                (visitStep tasks (fun d st => visit tasks fuel d st))
                { s with temp := tid :: s.temp }
              pure { visited := tid :: s2.visited
                     temp := s2.temp.erase tid
                     result := s2.result ++ [t] } : Except PlanError VState) =
              .error .outOfFuel := h
          cases hf : t.depends_on.foldlM
              (visitStep tasks (fun d st => visit tasks fuel d st))
              { s with temp := tid :: s.temp } with
          | ok s2 =>
            rw [hf] at h'
            exact Except.noConfusion h'
          | error e =>
            rw [hf] at h'
            have he : e = .outOfFuel := Except.error.inj h'
            subst he
            obtain ⟨d, hd, st1, htemp1, hnn, hv⟩ := foldlM_visitStep_error tasks _
              (fun d st st' hh => visit_ok_temp tasks fuel d st st' hh)
              t.depends_on _ _ hf
            have htid_ids : tid ∈ idsOf tasks :=
              (lookupTask_isSome_iff tasks tid).mp (by rw [hl]; rfl)
            refine ih d st1 ?_ ?_ ?_ hv
            · rw [htemp1]
              exact List.nodup_cons.mpr ⟨h1, hnd⟩
            · rw [htemp1]
              intro x hx
              rcases List.mem_cons.mp hx with rfl | hx
              · exact htid_ids
              · exact hsub x hx
            · rw [htemp1]
              show remaining tasks (tid :: s.temp) < fuel
              have hlt := remaining_cons_lt tasks s.temp tid htid_ids h1
              omega

/-- With a present starting id, `visit` never surfaces a `KeyError`. -/
theorem visit_no_keyError (tasks : List PlannerTask) :
    ∀ fuel tid (s : VState) (d : String), tid ∈ idsOf tasks →
      visit tasks fuel tid s ≠ .error (.keyError d) := by
  intro fuel
  induction fuel with
  | zero =>
    intro tid s d _ h
    exact PlanError.noConfusion (Except.error.inj h)
  | succ fuel ih =>
    intro tid s d hids h
    rw [visit] at h
    by_cases h1 : tid ∈ s.temp
    · rw [if_pos h1] at h
      exact PlanError.noConfusion (Except.error.inj h)
    · rw [if_neg h1] at h
      by_cases h2 : tid ∈ s.visited
      · rw [if_pos h2] at h
        exact Except.noConfusion h
      · rw [if_neg h2] at h
        cases hl : lookupTask tasks tid with
        | none =>
          rw [lookupTask_eq_none_iff] at hl
          exact hl hids
        | some t =>
          rw [hl] at h
          have h' : (do
              let s2 ← t.depends_on.foldlM
                (visitStep tasks (fun d st => visit tasks fuel d st))
                { s with temp := tid :: s.temp }
              pure { visited := tid :: s2.visited
                     temp := s2.temp.erase tid
                     result := s2.result ++ [t] } : Except PlanError VState) =
              .error (.keyError d) := h
          cases hf : t.depends_on.foldlM
              (visitStep tasks (fun d st => visit tasks fuel d st))
              { s with temp := tid :: s.temp } with
          | ok s2 =>
            rw [hf] at h'
            exact Except.noConfusion h'
          | error e =>
            rw [hf] at h'
            have he : e = .keyError d := Except.error.inj h'
            subst he
            obtain ⟨d', hd', st1, _, hnn, hv⟩ := foldlM_visitStep_error tasks _
              (fun d st st' hh => visit_ok_temp tasks fuel d st st' hh)
              t.depends_on _ _ hf
            exact ih d' st1 d (isNone_false_mem tasks d' hnn) hv

/-- The only errors the DFS can produce are a detected cycle, the fuel
artefact, or a `KeyError`. -/
theorem visit_error_shape (tasks : List PlannerTask) :
    ∀ fuel tid (s : VState) (e : PlanError), visit tasks fuel tid s = .error e →
      (∃ d, e = .cycleDetected d) ∨ e = .outOfFuel ∨ ∃ d, e = .keyError d := by
  intro fuel
  induction fuel with
  | zero =>
    intro tid s e h
    exact Or.inr (Or.inl (Except.error.inj h).symm)
  | succ fuel ih =>
    intro tid s e h
    rw [visit] at h
    by_cases h1 : tid ∈ s.temp
    · rw [if_pos h1] at h
      exact Or.inl ⟨tid, (Except.error.inj h).symm⟩
    · rw [if_neg h1] at h
      by_cases h2 : tid ∈ s.visited
      · rw [if_pos h2] at h
        exact Except.noConfusion h
      · rw [if_neg h2] at h
        cases hl : lookupTask tasks tid with
        | none =>
          rw [hl] at h
          exact Or.inr (Or.inr ⟨tid, (Except.error.inj h).symm⟩)
        | some t =>
          rw [hl] at h
          have h' : (do
              let s2 ← t.depends_on.foldlM
                (visitStep tasks (fun d st => visit tasks fuel d st))
                { s with temp := tid :: s.temp }
              pure { visited := tid :: s2.visited
                     temp := s2.temp.erase tid
                     result := s2.result ++ [t] } : Except PlanError VState) =
              .error e := h
          cases hf : t.depends_on.foldlM
              (visitStep tasks (fun d st => visit tasks fuel d st))
              { s with temp := tid :: s.temp } with
          | ok s2 =>
            rw [hf] at h'
            exact Except.noConfusion h'
          | error e' =>
            rw [hf] at h'
            have he : e' = e := Except.error.inj h'
            subst he
            obtain ⟨d', hd', st1, _, hnn, hv⟩ := foldlM_visitStep_error tasks _
              (fun d st st' hh => visit_ok_temp tasks fuel d st st' hh)
              t.depends_on _ _ hf
            exact ih d' st1 e' hv

/-- Whenever the DFS reports `cycleDetected d`, the id `d` really lies on
a dependency cycle (the path `temp` always reaches the current id). -/
theorem visit_cycle_carrier (tasks : List PlannerTask) :
    ∀ fuel tid (s : VState) (d : String),
      (∀ x ∈ s.temp, Relation.TransGen (depEdge tasks) x tid) →
      visit tasks fuel tid s = .error (.cycleDetected d) →
      Relation.TransGen (depEdge tasks) d d := by
  intro fuel
  induction fuel with
  | zero =>
    intro tid s d _ h
    exact absurd (Except.error.inj h) (by simp)
  | succ fuel ih =>
    intro tid s d hpre h
    rw [visit] at h
    by_cases h1 : tid ∈ s.temp
    · rw [if_pos h1] at h
      have htd : tid = d := by
        have := Except.error.inj h
        exact PlanError.cycleDetected.inj this
      subst htd
      exact hpre tid h1
    · rw [if_neg h1] at h
      by_cases h2 : tid ∈ s.visited
      · rw [if_pos h2] at h
        exact Except.noConfusion h
      · rw [if_neg h2] at h
        cases hl : lookupTask tasks tid with
        | none =>
          rw [hl] at h
          exact absurd (Except.error.inj h) (by simp)
        | some t =>
          rw [hl] at h
          have h' : (do
              let s2 ← t.depends_on.foldlM
                (visitStep tasks (fun d st => visit tasks fuel d st))
                { s with temp := tid :: s.temp }
              pure { visited := tid :: s2.visited
                     temp := s2.temp.erase tid
                     result := s2.result ++ [t] } : Except PlanError VState) =
              .error (.cycleDetected d) := h
          cases hf : t.depends_on.foldlM
              (visitStep tasks (fun d st => visit tasks fuel d st))
              { s with temp := tid :: s.temp } with
          | ok s2 =>
            rw [hf] at h'
            exact Except.noConfusion h'
          | error e =>
            rw [hf] at h'
            have he : e = .cycleDetected d := Except.error.inj h'
            subst he
            obtain ⟨d', hd', st1, htemp1, hnn, hv⟩ := foldlM_visitStep_error tasks _
              (fun d st st' hh => visit_ok_temp tasks fuel d st st' hh)
              t.depends_on _ _ hf
            have hedge : depEdge tasks tid d' := by
              simp only [depEdge, hl]
              exact ⟨hd', isNone_false_mem tasks d' hnn⟩
            refine ih d' st1 d ?_ hv
            intro x hx
            rw [htemp1] at hx
            rcases List.mem_cons.mp hx with rfl | hx
            · exact Relation.TransGen.single hedge
            · exact Relation.TransGen.tail (hpre x hx) hedge

/-- A failing `topological_sort` always fails with `cycleDetected`, and
the reported id lies on a dependency cycle: the fuel artefact cannot
occur (the bound `tasks.length + 1` exceeds the distinct-id count) and
`KeyError` cannot occur (top-level ids are present). -/
theorem sort_error_cycle (tasks : List PlannerTask) (e : PlanError)
    (h : topological_sort tasks = .error e) :
    ∃ d, e = .cycleDetected d ∧ Relation.TransGen (depEdge tasks) d d := by
  unfold topological_sort at h
  cases hf : tasks.foldlM
      (fun st t => visit tasks (tasks.length + 1) t.task_id st)
      ⟨[], [], []⟩ with
  | ok sF =>
    rw [hf] at h
    exact Except.noConfusion h
  | error e' =>
    rw [hf] at h
    have he : e' = e := Except.error.inj h
    subst he
    obtain ⟨t, ht, st1, htemp1, hv⟩ := topFold_error tasks (tasks.length + 1) tasks _ e' hf
    have hids : t.task_id ∈ idsOf tasks := List.mem_map_of_mem _ ht
    rcases visit_error_shape tasks (tasks.length + 1) t.task_id st1 e' hv with
      ⟨d, rfl⟩ | rfl | ⟨d, rfl⟩
    · refine ⟨d, rfl, ?_⟩
      refine visit_cycle_carrier tasks (tasks.length + 1) t.task_id st1 d ?_ hv
      intro x hx
      rw [htemp1] at hx
      exact absurd hx (List.not_mem_nil x)
    · refine absurd hv (visit_no_outOfFuel tasks (tasks.length + 1) t.task_id st1 ?_ ?_ ?_)
      · rw [htemp1]
        exact List.nodup_nil
      · rw [htemp1]
        intro x hx
        exact absurd hx (List.not_mem_nil x)
      · rw [htemp1, remaining_nil]
        have h1 : (idsOf tasks).dedup.length ≤ (idsOf tasks).length :=
          List.Sublist.length_le (List.dedup_sublist _)
        have h2 : (idsOf tasks).length = tasks.length := List.length_map _ _
        omega
    · exact absurd hv (visit_no_keyError tasks (tasks.length + 1) t.task_id st1 d hids)

/-! ## The amended invariant-enforcement claims -/

/-- The fallback graph ignores its arguments and always validates. -/
theorem validate_fallback (goal : String) (context : Option (List (String × PyVal))) :
    validate_plan (fallback_plan goal context) = .ok (fallback_plan goal context) := rfl

/-- Claim C3 as amended: every graph accepted by `validate` has no
dangling deps, only registered tools, at least one dependency edge, and
an acyclic dependency relation — the §3 invariants other than `task_id`
uniqueness, which the validator does not check. -/
theorem c3_validate_enforces_checked_invariants (g g' : PlannerTaskGraph)
    (h : validate_plan g = .ok g') :
    noDanglingDeps g.tasks ∧ allToolsKnown g.tasks ∧ hasDepEdge g.tasks ∧
      Acyclic g.tasks := by
  obtain ⟨h1, h2, h3, l, h4⟩ := validate_ok_checks g g' h
  exact ⟨h1, h2, h3, sort_ok_acyclic g.tasks l h4⟩

/-- Witness for C3 at the fallback graph, which validates. -/
theorem c3_witness :
    noDanglingDeps (fallback_plan "g" none).tasks ∧
      allToolsKnown (fallback_plan "g" none).tasks ∧
      hasDepEdge (fallback_plan "g" none).tasks ∧
      Acyclic (fallback_plan "g" none).tasks :=
  c3_validate_enforces_checked_invariants (fallback_plan "g" none)
    (fallback_plan "g" none) rfl

/-- Claim C8 as amended: on a graph with no dangling references and all
tools registered, a cycle in the dependency relation makes `validate`
raise `CycleDetected`, and the carried task_id lies on a cycle.  (With a
dangling reference or unknown tool present the validator fails earlier
with that check's error; see the counterexample.) -/
theorem c8_validate_detects_cycle (g : PlannerTaskGraph)
    (h1 : noDanglingDeps g.tasks) (h2 : allToolsKnown g.tasks)
    (h3 : ∃ u, Relation.TransGen (depEdge g.tasks) u u) :
    ∃ d, validate_plan g = .error (.cycleDetected d) ∧
      Relation.TransGen (depEdge g.tasks) d d := by
  obtain ⟨u, hu⟩ := h3
  have hdep : hasDepEdge g.tasks := by
    obtain ⟨c, hedge, _⟩ := Relation.TransGen.head'_iff.mp hu
    cases hl : lookupTask g.tasks u with
    | none => simp only [depEdge, hl] at hedge
    | some t =>
      simp only [depEdge, hl] at hedge
      obtain ⟨htm, _⟩ := lookupTask_eq_some g.tasks u t hl
      refine ⟨t, htm, fun hc => ?_⟩
      rw [hc] at hedge
      exact (List.not_mem_nil c) hedge.1
  cases hts : topological_sort g.tasks with
  | ok l => exact absurd hu (sort_ok_acyclic g.tasks l hts u)
  | error e =>
    obtain ⟨d, rfl, hd⟩ := sort_error_cycle g.tasks e hts
    refine ⟨d, ?_, hd⟩
    unfold validate_plan
    rw [(findDangling_eq_none_iff _).mpr h1, (findUnknownTool_eq_none_iff _).mpr h2]
    have hne : ¬ (g.tasks.all (fun t => t.depends_on.isEmpty) = true) := by
      rw [all_isEmpty_iff]
      exact not_not_intro hdep
    simp only [Bool.not_eq_true] at hne
    simp [hne, hts, Except.map]

/-- Witness for C8 at the spec's two-task cycle a ↔ b. -/
theorem c8_witness :
    ∃ d, validate_plan twoCycleGraph = .error (.cycleDetected d) ∧
      Relation.TransGen (depEdge twoCycleGraph.tasks) d d :=
  c8_validate_detects_cycle twoCycleGraph (by decide) (by decide)
    ⟨"a", @Relation.TransGen.head String (depEdge twoCycleGraph.tasks) "a" "b" "a"
      (by decide) (Relation.TransGen.single (by decide))⟩

/-- Whatever graph the attempt pipeline hands back, it has just been
returned unchanged by `validate_plan`, so validating it again succeeds. -/
theorem plan_attempt_ok_validates
    (complete : String → Except PlanError String)
    (parse : String → Except PlanError PlannerTaskGraph)
    (prompt : String) (p : PlannerTaskGraph)
    (h : plan_attempt complete parse prompt = .ok p) :
    validate_plan p = .ok p := by
  simp only [plan_attempt] at h
  cases hc : complete prompt with
  | error e =>
    rw [hc] at h
    exact Except.noConfusion h
  | ok raw =>
    rw [hc] at h
    have h' : (do
        let parsed ← parse raw
        let plan ← validate_plan (sanitize_plan parsed)
        pure plan : Except PlanError PlannerTaskGraph) = .ok p := h
    cases hp : parse raw with
    | error e =>
      rw [hp] at h'
      exact Except.noConfusion h'
    | ok parsed =>
      rw [hp] at h'
      have h'' : (validate_plan (sanitize_plan parsed) >>= fun plan =>
          (pure plan : Except PlanError PlannerTaskGraph)) = .ok p := h'
      cases hv : validate_plan (sanitize_plan parsed) with
      | error e =>
        rw [hv] at h''
        exact Except.noConfusion h''
      | ok q =>
        rw [hv] at h''
        have hq : q = p := Except.ok.inj h''
        subst hq
        have he := validate_ok_eq _ _ hv
        rw [he]
        rw [he] at hv
        exact hv

/-- A failing completion call fails the whole attempt with its error. -/
theorem plan_attempt_error
    (complete : String → Except PlanError String)
    (parse : String → Except PlanError PlannerTaskGraph)
    (prompt : String) (e : PlanError)
    (h : complete prompt = .error e) :
    plan_attempt complete parse prompt = .error e := by
  simp only [plan_attempt]
  rw [h]
  rfl

/-- Claim C2 as amended: for every behaviour of the opaque completion and
parse collaborators, the engine returns (never raises — the embedded
return type has no error case) a graph that `validate` accepts, hence one
with no dangling deps, registered tools, a dependency edge and no cycle;
task_id uniqueness is NOT guaranteed on the success path (see the
counterexample).  When the completion call fails, the result is exactly
the fallback graph, which has 3 tasks, a dependency edge, registered
tools, unique ids, no dangling deps and an acyclic relation. -/
theorem c2_plan_never_raises_validated
    (complete : String → Except PlanError String)
    (parse : String → Except PlanError PlannerTaskGraph)
    (goal : String) (context : Option (List (String × PyVal))) :
    validate_plan (planner_engine_with complete parse goal context) =
      .ok (planner_engine_with complete parse goal context) ∧
    (∀ e, complete (composePrompt goal context) = .error e →
      planner_engine_with complete parse goal context = fallback_plan goal context) ∧
    3 ≤ (fallback_plan goal context).tasks.length ∧
    hasDepEdge (fallback_plan goal context).tasks ∧
    allToolsKnown (fallback_plan goal context).tasks ∧
    noDanglingDeps (fallback_plan goal context).tasks ∧
    uniqueIds (fallback_plan goal context).tasks ∧
    Acyclic (fallback_plan goal context).tasks := by
  have hac : Acyclic (fallback_plan goal context).tasks := by
    obtain ⟨_, _, _, l, h4⟩ :=
      validate_ok_checks _ _ (validate_fallback goal context)
    exact sort_ok_acyclic _ l h4
  refine ⟨?_, ?_,
    (by decide : 3 ≤ (fallback_plan "" none).tasks.length),
    (by decide : hasDepEdge (fallback_plan "" none).tasks),
    (by decide : allToolsKnown (fallback_plan "" none).tasks),
    (by decide : noDanglingDeps (fallback_plan "" none).tasks),
    (by decide : uniqueIds (fallback_plan "" none).tasks), hac⟩
  · simp only [planner_engine_with]
    cases ha : plan_attempt complete parse (composePrompt goal context) with
    | error e => exact validate_fallback goal context
    | ok p => exact plan_attempt_ok_validates complete parse _ p ha
  · intro e he
    simp only [planner_engine_with]
    rw [plan_attempt_error complete parse _ e he]

/-- Witness for C2: with the shipped always-raising completion, the
engine's result validates and equals the fallback graph. -/
theorem c2_witness :
    validate_plan (planner_engine "x" none) = .ok (planner_engine "x" none) ∧
      planner_engine "x" none = fallback_plan "x" none :=
  ⟨(c2_plan_never_raises_validated llm_complete parse_graph "x" none).1,
   (c2_plan_never_raises_validated llm_complete parse_graph "x" none).2.1
     .notImplemented rfl⟩

/-- Counterexample for C8: a graph whose dependency relation has a cycle
among non-dangling references (a ↔ b) but which also contains a dangling
reference elsewhere fails with the dangling-dependency error — the cycle
check never runs, so `validate` does not raise `CycleDetected`. -/
theorem c8_counterexample_dangling_preempts_cycle :
    Relation.TransGen (depEdge cycleAndDanglingGraph.tasks) "a" "a" ∧
      validate_plan cycleAndDanglingGraph = .error (.danglingDependency "zzz") :=
  ⟨@Relation.TransGen.head String (depEdge cycleAndDanglingGraph.tasks) "a" "b" "a"
      (by decide) (Relation.TransGen.single (by decide)),
   rfl⟩

/-! ## Claim C7: dangling deps are invisible to the orderer -/

theorem stripTask_id (ids : List String) (t : PlannerTask) :
    (stripTask ids t).task_id = t.task_id := rfl

theorem idsOf_strip (tasks : List PlannerTask) :
    idsOf (stripDangling tasks) = idsOf tasks := by
  unfold idsOf stripDangling
  rw [List.map_map]
  rfl

theorem lookupTask_strip (tasks : List PlannerTask) (tid : String) :
    lookupTask (stripDangling tasks) tid =
      (lookupTask tasks tid).map (stripTask (idsOf tasks)) := by
  unfold lookupTask stripDangling
  rw [← List.map_reverse, List.find?_map]
  rfl

/-- Skipping is decided identically on the stripped graph. -/
theorem lookupTask_strip_isNone (tasks : List PlannerTask) (d : String) :
    (lookupTask (stripDangling tasks) d).isNone = (lookupTask tasks d).isNone := by
  rw [lookupTask_strip]
  cases lookupTask tasks d <;> rfl

/-- The dep loop commutes with stripping: over the filtered dep list of a
stripped task it reaches the stripped image of the original state. -/
theorem foldDeps_strip (tasks : List PlannerTask) (fuel : Nat)
    (ih : ∀ tid (s : VState),
      visit (stripDangling tasks) fuel tid (stripState (idsOf tasks) s) =
        (visit tasks fuel tid s).map (stripState (idsOf tasks))) :
    ∀ (ds : List String) (st : VState),
      (ds.filter (fun d => (idsOf tasks).contains d)).foldlM
          (visitStep (stripDangling tasks)
            (fun d st => visit (stripDangling tasks) fuel d st))
          (stripState (idsOf tasks) st) =
        (ds.foldlM (visitStep tasks (fun d st => visit tasks fuel d st)) st).map
          (stripState (idsOf tasks)) := by
  intro ds
  induction ds with
  | nil =>
    intro st
    rfl
  | cons d ds ihds =>
    intro st
    by_cases hd : d ∈ idsOf tasks
    · have hlk : (lookupTask tasks d).isNone = false := by
        cases ho : lookupTask tasks d with
        | none =>
          rw [lookupTask_eq_none_iff] at ho
          exact absurd hd ho
        | some t => rfl
      rw [List.filter_cons_of_pos (by simpa using hd), List.foldlM_cons,
        List.foldlM_cons]
      have hstep1 : visitStep (stripDangling tasks)
          (fun d st => visit (stripDangling tasks) fuel d st)
          (stripState (idsOf tasks) st) d =
          (visit tasks fuel d st).map (stripState (idsOf tasks)) := by
        rw [visitStep, lookupTask_strip_isNone, hlk]
        simp only [Bool.false_eq_true, if_false]
        exact ih d st
      have hstep2 : visitStep tasks (fun d st => visit tasks fuel d st) st d =
          visit tasks fuel d st := by
        rw [visitStep, hlk]
        simp only [Bool.false_eq_true, if_false]
      rw [hstep1, hstep2]
      cases hv : visit tasks fuel d st with
      | error e => rfl
      | ok st1 => exact ihds st1
    · have hlk : (lookupTask tasks d).isNone = true := by
        rw [Option.isNone_iff_eq_none, lookupTask_eq_none_iff]
        exact hd
      rw [List.filter_cons_of_neg (by simpa using hd), List.foldlM_cons]
      have hstep2 : visitStep tasks (fun d st => visit tasks fuel d st) st d =
          pure st := by
        rw [visitStep, hlk]
        simp only [if_true]
      rw [hstep2]
      exact ihds st

/-- One DFS call commutes with stripping the dangling deps. -/
theorem visit_strip (tasks : List PlannerTask) :
    ∀ fuel tid (s : VState),
      visit (stripDangling tasks) fuel tid (stripState (idsOf tasks) s) =
        (visit tasks fuel tid s).map (stripState (idsOf tasks)) := by
  intro fuel
  induction fuel with
  | zero =>
    intro tid s
    rfl
  | succ fuel ih =>
    intro tid s
    rw [visit, visit]
    by_cases h1 : tid ∈ s.temp
    · rw [if_pos (show tid ∈ (stripState (idsOf tasks) s).temp from h1), if_pos h1]
      rfl
    · rw [if_neg (show tid ∉ (stripState (idsOf tasks) s).temp from h1), if_neg h1]
      by_cases h2 : tid ∈ s.visited
      · rw [if_pos (show tid ∈ (stripState (idsOf tasks) s).visited from h2), if_pos h2]
        rfl
      · rw [if_neg (show tid ∉ (stripState (idsOf tasks) s).visited from h2), if_neg h2]
        rw [lookupTask_strip]
        cases hl : lookupTask tasks tid with
        | none => rfl
        | some t =>
          simp only [Option.map_some']
          have hfold' :
              ((stripTask (idsOf tasks) t).depends_on).foldlM
                (visitStep (stripDangling tasks)
                  (fun d st => visit (stripDangling tasks) fuel d st))
                { visited := (stripState (idsOf tasks) s).visited
                  temp := tid :: (stripState (idsOf tasks) s).temp
                  result := (stripState (idsOf tasks) s).result } =
              ((t.depends_on.foldlM
                  (visitStep tasks (fun d st => visit tasks fuel d st))
                  { visited := s.visited
                    temp := tid :: s.temp
                    result := s.result }).map
                (stripState (idsOf tasks))) :=
            foldDeps_strip tasks fuel ih t.depends_on
              { visited := s.visited, temp := tid :: s.temp, result := s.result }
          rw [hfold']
          cases hf : t.depends_on.foldlM
              (visitStep tasks (fun d st => visit tasks fuel d st))
              { visited := s.visited, temp := tid :: s.temp, result := s.result } with
          | error e => rfl
          | ok s2 =>
            show Except.ok { visited := tid :: s2.visited
                             temp := s2.temp.erase tid
                             result := s2.result.map (stripTask (idsOf tasks)) ++
                               [stripTask (idsOf tasks) t] } =
              Except.ok (stripState (idsOf tasks)
                { visited := tid :: s2.visited
                  temp := s2.temp.erase tid
                  result := s2.result ++ [t] })
            rw [stripState]
            simp [List.map_append]

/-- The top-level loop commutes with stripping. -/
theorem topFold_strip (tasks : List PlannerTask) (N : Nat) :
    ∀ (ts : List PlannerTask) (st : VState),
      (ts.map (stripTask (idsOf tasks))).foldlM
          (fun st t => visit (stripDangling tasks) N t.task_id st)
          (stripState (idsOf tasks) st) =
        (ts.foldlM (fun st t => visit tasks N t.task_id st) st).map
          (stripState (idsOf tasks)) := by
  intro ts
  induction ts with
  | nil =>
    intro st
    rfl
  | cons t ts ih =>
    intro st
    rw [List.map_cons, List.foldlM_cons, List.foldlM_cons]
    have h1 : visit (stripDangling tasks) N (stripTask (idsOf tasks) t).task_id
        (stripState (idsOf tasks) st) =
        (visit tasks N t.task_id st).map (stripState (idsOf tasks)) :=
      visit_strip tasks N t.task_id st
    rw [h1]
    cases hv : visit tasks N t.task_id st with
    | error e => rfl
    | ok st1 => exact ih st1

/-- Claim C7: `topological_order` never fails because of a dangling
`depends_on` entry — such entries are treated as absent.  The run on the
graph with those entries removed succeeds or fails identically (same
error) and produces the same tasks in the same order, the only difference
being that the returned tasks no longer carry the removed entries (first
conjunct); in particular the id sequences of the two results coincide
exactly (second conjunct). -/
theorem c7_topological_sort_ignores_dangling (tasks : List PlannerTask) :
    topological_sort (stripDangling tasks) =
      (topological_sort tasks).map (List.map (stripTask (idsOf tasks))) ∧
    (topological_sort (stripDangling tasks)).map (List.map PlannerTask.task_id) =
      (topological_sort tasks).map (List.map PlannerTask.task_id) := by
  have hmain : topological_sort (stripDangling tasks) =
      (topological_sort tasks).map (List.map (stripTask (idsOf tasks))) := by
    unfold topological_sort
    have hlen : (stripDangling tasks).length = tasks.length := List.length_map _ _
    rw [hlen]
    have h := topFold_strip tasks (tasks.length + 1) tasks ⟨[], [], []⟩
    have h' : (stripDangling tasks).foldlM
        (fun st t => visit (stripDangling tasks) (tasks.length + 1) t.task_id st)
        ⟨[], [], []⟩ =
        (tasks.foldlM (fun st t => visit tasks (tasks.length + 1) t.task_id st)
          ⟨[], [], []⟩).map (stripState (idsOf tasks)) := h
    rw [h']
    cases hf : tasks.foldlM
        (fun st t => visit tasks (tasks.length + 1) t.task_id st)
        ⟨[], [], []⟩ with
    | error e => rfl
    | ok sF =>
      show Except.ok ((sF.result.map (stripTask (idsOf tasks))).reverse) =
        Except.ok ((sF.result.reverse).map (stripTask (idsOf tasks)))
      rw [List.map_reverse]
  refine ⟨hmain, ?_⟩
  rw [hmain]
  cases topological_sort tasks with
  | error e => rfl
  | ok l =>
    show Except.ok ((l.map (stripTask (idsOf tasks))).map PlannerTask.task_id) =
      Except.ok (l.map PlannerTask.task_id)
    rw [List.map_map]
    rfl

end Planner
